import Mathlib

/-!
Shallow embedding of `src/order.rs` (Sticker-Market matching core).

Modelling conventions:
* `std::time::SystemTime` is modelled as a `Nat` tick count; the source only
  compares timestamps (`Ord`), which agrees with `Nat` comparison.
* `i64` ids and prices are modelled as `Int` (no arithmetic is performed on
  them in the source, only comparison and equality, so no wrap-around arises).
* `HashMap<i64, Order>` is modelled as an association list whose `insert`
  places the new binding in front and drops any old binding for the same key,
  which is content-faithful to `HashMap::insert` (same key set, same lookup).
* `BinaryHeap<OrderIndex>` is modelled as a list of its elements; `push` is
  cons, `retain` is filter, and `pop` extracts a maximal element with respect
  to the embedded `Ord` (the leftmost maximal one — `BinaryHeap` leaves the
  order among `Ord`-equal elements unspecified, and this determinisation only
  matters on ties of `(price, timestamp)`).
-/

inductive OrderSide where
  | Bid : OrderSide
  | Ask : OrderSide
deriving DecidableEq, Repr

/-- `OrderIndex` from the source: the sort key carried inside a priority
queue, holding `(id, price, timestamp, order_side)`. -/
structure OrderIndex where
  id : Int
  price : Int
  timestamp : Nat
  order_side : OrderSide
deriving DecidableEq, Repr

/-- `impl Ord for OrderIndex` from the source, branch for branch.  The final
branch is `other.timestamp.cmp(&self.timestamp)`, written out as explicit
comparisons on `Nat`. -/
def OrderIndex.cmp (self other : OrderIndex) : Ordering :=
  if self.price < other.price then
    match self.order_side with
    | OrderSide.Bid => Ordering.lt
    | OrderSide.Ask => Ordering.gt
  else if other.price < self.price then
    match self.order_side with
    | OrderSide.Bid => Ordering.gt
    | OrderSide.Ask => Ordering.lt
  else
    if other.timestamp < self.timestamp then Ordering.lt
    else if self.timestamp < other.timestamp then Ordering.gt
    else Ordering.eq

/-- `Order` from the source. -/
structure Order where
  id : Int
  sticker_id : String
  creator_user_id : String
  fulfiller_user_id : Option String
  is_fulfilled : Bool
  price : Int
  order_side : OrderSide
  created_at : Nat
deriving DecidableEq, Repr

/-- Content model of `HashMap<i64, Order>::insert`: the new binding shadows
and replaces any existing binding for the same key. -/
def mapInsert (m : List (Int × Order)) (k : Int) (v : Order) : List (Int × Order) :=
  (k, v) :: m.filter (fun p => p.1 ≠ k)

/-- Content model of `HashMap<i64, Order>::remove_entry` (the source ignores
the returned entry, so only the resulting map matters). -/
def mapRemove (m : List (Int × Order)) (k : Int) : List (Int × Order) :=
  m.filter (fun p => p.1 ≠ k)

/-- Content model of `HashMap::contains_key`. -/
def mapContains (m : List (Int × Order)) (k : Int) : Bool :=
  m.any (fun p => p.1 = k)

/-- Content model of `HashMap::get`. -/
def mapLookup (m : List (Int × Order)) (k : Int) : Option Order :=
  (m.find? (fun p => p.1 = k)).map Prod.snd

/-- `BinaryHeap::pop`: extract a maximal element (per `OrderIndex.cmp`) and
return it with the remaining elements.  Picks the leftmost maximal element;
see the header note on ties. -/
def popMax : List OrderIndex → Option (OrderIndex × List OrderIndex)
  | [] => none
  | x :: xs =>
    match popMax xs with
    | none => some (x, [])
    | some (m, rest) =>
      if OrderIndex.cmp x m = Ordering.lt then some (m, x :: rest)
      else some (x, xs)

/-- `StickerOrderBook` from the source: the per-sticker map and two queues. -/
structure StickerOrderBook where
  order_map : List (Int × Order)
  order_queue_ask : List OrderIndex
  order_queue_bid : List OrderIndex
deriving DecidableEq, Repr

/-- `StickerOrderBook::new`. -/
def StickerOrderBook.new : StickerOrderBook :=
  { order_map := [], order_queue_ask := [], order_queue_bid := [] }

/-- `StickerOrderBook::add_order`: build the index entry, push it onto the
queue matching the order's side, insert the order into the map.  No duplicate
check is performed by the source. -/
def add_order (b : StickerOrderBook) (o : Order) : StickerOrderBook :=
  let idx : OrderIndex :=
    { id := o.id, price := o.price, timestamp := o.created_at, order_side := o.order_side }
  match o.order_side with
  | OrderSide.Bid =>
    { b with order_queue_bid := idx :: b.order_queue_bid,
             order_map := mapInsert b.order_map o.id o }
  | OrderSide.Ask =>
    { b with order_queue_ask := idx :: b.order_queue_ask,
             order_map := mapInsert b.order_map o.id o }

/-- `StickerOrderBook::remove_order`: retain on both queues, remove from the
map.  The source returns nothing and never signals an error. -/
def remove_order (b : StickerOrderBook) (order_id : Int) : StickerOrderBook :=
  { order_map := mapRemove b.order_map order_id,
    order_queue_bid := b.order_queue_bid.filter (fun i => i.id ≠ order_id),
    order_queue_ask := b.order_queue_ask.filter (fun i => i.id ≠ order_id) }

/-- `StickerOrderBook::next_bid_order`: pop the bid queue; the map and the
ask queue are untouched. -/
def next_bid_order (b : StickerOrderBook) : Option OrderIndex × StickerOrderBook :=
  match popMax b.order_queue_bid with
  | none => (none, b)
  | some (p, rest) => (some p, { b with order_queue_bid := rest })

/-- `StickerOrderBook::next_ask_order`: pop the ask queue; the map and the
bid queue are untouched. -/
def next_ask_order (b : StickerOrderBook) : Option OrderIndex × StickerOrderBook :=
  match popMax b.order_queue_ask with
  | none => (none, b)
  | some (p, rest) => (some p, { b with order_queue_ask := rest })

/-- Successive `pop` results of one queue, fuelled (the fuel is always chosen
as the queue length, which suffices since every pop strictly shrinks the
queue). -/
def popSeqAux : Nat → List OrderIndex → List OrderIndex
  | 0, _ => []
  | n + 1, l =>
    match popMax l with
    | none => []
    | some (p, rest) => p :: popSeqAux n rest

/-- The full sequence of elements returned by successive pops of a queue. -/
def popSeq (l : List OrderIndex) : List OrderIndex :=
  popSeqAux l.length l

/-- Successive `next_ask_order` results of a book (each call pops the ask
queue, so this is `popSeq` of the ask queue). -/
def drainAsk (b : StickerOrderBook) : List OrderIndex :=
  popSeq b.order_queue_ask

/-- Successive `next_bid_order` results of a book. -/
def drainBid (b : StickerOrderBook) : List OrderIndex :=
  popSeq b.order_queue_bid

/-- Trade record, fields per the spec boundary contract
`(bid_order_id, ask_order_id, execution_price, matched_at)`. -/
structure Trade where
  bid_order_id : Int
  ask_order_id : Int
  execution_price : Int
  matched_at : Nat
deriving DecidableEq, Repr

/-- Error taxonomy from the spec. -/
inductive OrderError where
  | DuplicateOrderId : OrderError
  | OrderNotFound : OrderError
  | InvalidPrice : OrderError
deriving DecidableEq, Repr

/-- Modelled from the spec: `cancel_order` as described in the spec's
component design — it rejects an unknown id with `OrderNotFound`, otherwise
removes the order (the source's `remove_order` has no error channel; this
definition exists to state the spec's claimed behaviour for comparison). -/
def cancel_order_spec (b : StickerOrderBook) (i : Int) : Except OrderError StickerOrderBook :=
  if mapContains b.order_map i then Except.ok (remove_order b i) else Except.error OrderError.OrderNotFound

/-- Modelled from the spec: `add_order` as described in the spec's component
design — it rejects a duplicate id with `DuplicateOrderId` and otherwise
inserts (the source's `add_order` performs no duplicate check; this
definition exists to state the spec's claimed behaviour for comparison). -/
def add_order_spec (b : StickerOrderBook) (o : Order) : Except OrderError StickerOrderBook :=
  if mapContains b.order_map o.id then Except.error OrderError.DuplicateOrderId else Except.ok (add_order b o)

/-- Modelled from the spec: one fuelled run of the crossing loop of the
matching algorithm, which is missing from the source (`match_order` is an
empty stub).  Each iteration peeks both sides, stops when a side is empty or
when `best_bid.price < best_ask.price`, and otherwise pops both, marks both
orders filled with the counterparty's creator as filler, removes both from
the map, and emits one trade at the maker's price (the earlier-created
order's price).  A popped index whose order is no longer in the map is
discarded and the loop continues (the lazy-deletion reading the spec's
design notes allow).  Returns the final book, the trades, and the filled
(removed) orders. -/
def matchAux (now : Nat) : Nat → StickerOrderBook → StickerOrderBook × List Trade × List Order
  | 0, b => (b, [], [])
  | n + 1, b =>
    match popMax b.order_queue_bid, popMax b.order_queue_ask with
    | none, _ => (b, [], [])
    | some _, none => (b, [], [])
    | some (pb, restB), some (pa, restA) =>
      if pb.price < pa.price then (b, [], [])
      else
        match mapLookup b.order_map pb.id with
        | none => matchAux now n { b with order_queue_bid := restB }
        | some bidOrd =>
          match mapLookup b.order_map pa.id with
          | none => matchAux now n { b with order_queue_ask := restA }
          | some askOrd =>
            let execPrice : Int :=
              if bidOrd.created_at ≤ askOrd.created_at then bidOrd.price else askOrd.price
            let filledBid : Order :=
              { bidOrd with is_fulfilled := true,
                            fulfiller_user_id := some askOrd.creator_user_id }
            let filledAsk : Order :=
              { askOrd with is_fulfilled := true,
                            fulfiller_user_id := some bidOrd.creator_user_id }
            let b2 : StickerOrderBook :=
              { order_map := mapRemove (mapRemove b.order_map pb.id) pa.id,
                order_queue_bid := restB,
                order_queue_ask := restA }
            let r := matchAux now n b2
            (r.1,
             { bid_order_id := pb.id, ask_order_id := pa.id,
               execution_price := execPrice, matched_at := now } :: r.2.1,
             filledBid :: filledAsk :: r.2.2)

/-- Modelled from the spec: `match()` — run the crossing loop to completion.
The fuel `|bids| + |asks|` suffices because every continuing iteration
strictly shrinks that sum. -/
def match_order_spec (now : Nat) (b : StickerOrderBook) :
    StickerOrderBook × List Trade × List Order :=
  matchAux now (b.order_queue_bid.length + b.order_queue_ask.length) b

/-- The operations a caller can perform on a `StickerOrderBook`. -/
inductive BookOp where
  | add : Order → BookOp
  | cancel : Int → BookOp
  | popBid : BookOp
  | popAsk : BookOp
deriving DecidableEq

/-- Apply one operation to a book (pop operations keep the resulting book,
discarding the returned index). -/
def applyOp (b : StickerOrderBook) : BookOp → StickerOrderBook
  | BookOp.add o => add_order b o
  | BookOp.cancel i => remove_order b i
  | BookOp.popBid => (next_bid_order b).2
  | BookOp.popAsk => (next_ask_order b).2

/-- Apply a sequence of operations, left to right. -/
def applyOps (b : StickerOrderBook) (ops : List BookOp) : StickerOrderBook :=
  ops.foldl applyOp b

/-- Every index entry in either queue refers to a key of the order map. -/
def queuesCovered (b : StickerOrderBook) : Prop :=
  (∀ i ∈ b.order_queue_bid, mapContains b.order_map i.id = true) ∧
  (∀ i ∈ b.order_queue_ask, mapContains b.order_map i.id = true)

/-- No cross is pending: it is not the case that both sides are non-empty
with best bid price at least the best ask price (the best entries are the
ones `pop` would return). -/
def noCross (b : StickerOrderBook) : Prop :=
  ∀ x rx y ry, popMax b.order_queue_bid = some (x, rx) →
    popMax b.order_queue_ask = some (y, ry) → x.price < y.price

/-- The id `i` appears nowhere in the book: not in the map, not in either
queue. -/
def idFree (b : StickerOrderBook) (i : Int) : Prop :=
  mapContains b.order_map i = false ∧
  (∀ x ∈ b.order_queue_bid, x.id ≠ i) ∧
  (∀ x ∈ b.order_queue_ask, x.id ≠ i)

/-! Concrete sample data used by witnesses and counterexamples. -/

def oBid50 : Order :=
  { id := 1, sticker_id := "s", creator_user_id := "alice", fulfiller_user_id := none,
    is_fulfilled := false, price := 50, order_side := OrderSide.Bid, created_at := 1 }

def oAsk40 : Order :=
  { id := 2, sticker_id := "s", creator_user_id := "bob", fulfiller_user_id := none,
    is_fulfilled := false, price := 40, order_side := OrderSide.Ask, created_at := 2 }

def oBid30 : Order :=
  { id := 3, sticker_id := "s", creator_user_id := "carol", fulfiller_user_id := none,
    is_fulfilled := false, price := 30, order_side := OrderSide.Bid, created_at := 3 }

def oAsk25 : Order :=
  { id := 4, sticker_id := "s", creator_user_id := "dave", fulfiller_user_id := none,
    is_fulfilled := false, price := 25, order_side := OrderSide.Ask, created_at := 4 }

def oAsk15 : Order :=
  { id := 5, sticker_id := "s", creator_user_id := "erin", fulfiller_user_id := none,
    is_fulfilled := false, price := 15, order_side := OrderSide.Ask, created_at := 5 }

def oBid50dup : Order :=
  { id := 1, sticker_id := "s", creator_user_id := "mallory", fulfiller_user_id := none,
    is_fulfilled := false, price := 60, order_side := OrderSide.Bid, created_at := 9 }

/-- A book holding just `oBid50` (id 1). -/
def bDup : StickerOrderBook :=
  add_order StickerOrderBook.new oBid50

/-- A book with two asks (prices 25, 15) and two bids (prices 50, 30). -/
def bC2 : StickerOrderBook :=
  add_order (add_order (add_order (add_order StickerOrderBook.new oAsk25) oAsk15) oBid50) oBid30

def iA1 : OrderIndex := { id := 11, price := 15, timestamp := 0, order_side := OrderSide.Ask }

def iA2 : OrderIndex := { id := 12, price := 15, timestamp := 600, order_side := OrderSide.Ask }

def iB1 : OrderIndex := { id := 13, price := 15, timestamp := 0, order_side := OrderSide.Bid }

def iB2 : OrderIndex := { id := 14, price := 15, timestamp := 600, order_side := OrderSide.Bid }

/-- A book whose ask queue holds two equal-price asks (earlier one first) and
whose bid queue holds two equal-price bids (later one first). -/
def bC3 : StickerOrderBook :=
  { order_map := [], order_queue_ask := [iA1, iA2], order_queue_bid := [iB2, iB1] }

/-- A book with a bid at 30 and an ask at 40: no cross. -/
def bNoCross : StickerOrderBook :=
  add_order (add_order StickerOrderBook.new oBid30) oAsk40

/-- The index entry `add_order` builds for `oBid50`. -/
def idxBid50 : OrderIndex := { id := 1, price := 50, timestamp := 1, order_side := OrderSide.Bid }

example :
    popMax [({ id := 1, price := 25, timestamp := 0, order_side := OrderSide.Ask } : OrderIndex),
            { id := 2, price := 15, timestamp := 0, order_side := OrderSide.Ask }] =
      some ({ id := 2, price := 15, timestamp := 0, order_side := OrderSide.Ask },
            [{ id := 1, price := 25, timestamp := 0, order_side := OrderSide.Ask }]) := by
  decide

example :
    popMax [({ id := 1, price := 25, timestamp := 0, order_side := OrderSide.Bid } : OrderIndex),
            { id := 2, price := 15, timestamp := 0, order_side := OrderSide.Bid }] =
      some ({ id := 1, price := 25, timestamp := 0, order_side := OrderSide.Bid },
            [{ id := 2, price := 15, timestamp := 0, order_side := OrderSide.Bid }]) := by
  decide

example :
    (match_order_spec 7 (add_order (add_order StickerOrderBook.new oBid50) oAsk40)).2.1 =
      [{ bid_order_id := 1, ask_order_id := 2, execution_price := 50, matched_at := 7 }] := by
  decide

/-! ### Basic lemmas about `popMax` -/

theorem popMax_eq_none {l : List OrderIndex} : popMax l = none ↔ l = [] := by
  cases l with
  | nil => simp [popMax]
  | cons x xs =>
    simp only [popMax]
    cases popMax xs with
    | none => simp
    | some pr =>
      obtain ⟨m, r⟩ := pr
      by_cases hc : OrderIndex.cmp x m = Ordering.lt <;> simp [hc]

theorem popMax_perm : ∀ {l : List OrderIndex} {p : OrderIndex} {rest : List OrderIndex},
    popMax l = some (p, rest) → l.Perm (p :: rest) := by
  intro l
  induction l with
  | nil => intro p rest h; simp [popMax] at h
  | cons x xs ih =>
    intro p rest h
    simp only [popMax] at h
    split at h
    · rename_i hm
      simp only [Option.some.injEq, Prod.mk.injEq] at h
      obtain ⟨rfl, rfl⟩ := h
      have hnil : xs = [] := popMax_eq_none.mp hm
      subst hnil
      exact List.Perm.refl _
    · rename_i m r hm
      split at h
      · rename_i hc
        simp only [Option.some.injEq, Prod.mk.injEq] at h
        obtain ⟨rfl, rfl⟩ := h
        exact ((ih hm).cons x).trans (List.Perm.swap _ _ _)
      · simp only [Option.some.injEq, Prod.mk.injEq] at h
        obtain ⟨rfl, rfl⟩ := h
        exact List.Perm.refl _

theorem popMax_length {l : List OrderIndex} {p : OrderIndex} {rest : List OrderIndex}
    (h : popMax l = some (p, rest)) : l.length = rest.length + 1 := by
  have := (popMax_perm h).length_eq
  simpa using this

theorem popMax_mem {l : List OrderIndex} {p : OrderIndex} {rest : List OrderIndex}
    (h : popMax l = some (p, rest)) {y : OrderIndex} (hy : y ∈ l) : y = p ∨ y ∈ rest := by
  have := (popMax_perm h).mem_iff.mp hy
  simpa using this

theorem popMax_rest_subset {l : List OrderIndex} {p : OrderIndex} {rest : List OrderIndex}
    (h : popMax l = some (p, rest)) {y : OrderIndex} (hy : y ∈ rest) : y ∈ l :=
  (popMax_perm h).mem_iff.mpr (List.mem_cons_of_mem p hy)

theorem popMax_self_mem {l : List OrderIndex} {p : OrderIndex} {rest : List OrderIndex}
    (h : popMax l = some (p, rest)) : p ∈ l :=
  (popMax_perm h).mem_iff.mpr (List.mem_cons_self p rest)

/-! ### The comparator orders ask entries by ascending price (descending is
"greater") and bid entries by descending price, with earlier timestamps
greater on both sides. -/

theorem cmp_ne_lt_ask {x y : OrderIndex} (h : x.order_side = OrderSide.Ask) :
    OrderIndex.cmp x y ≠ Ordering.lt ↔
      (x.price < y.price ∨ (x.price = y.price ∧ x.timestamp ≤ y.timestamp)) := by
  unfold OrderIndex.cmp
  rw [h]
  split_ifs with h1 h2 h3 h4 <;> simp <;> omega

theorem cmp_eq_lt_ask {x y : OrderIndex} (h : x.order_side = OrderSide.Ask) :
    OrderIndex.cmp x y = Ordering.lt ↔
      (y.price < x.price ∨ (x.price = y.price ∧ y.timestamp < x.timestamp)) := by
  unfold OrderIndex.cmp
  rw [h]
  split_ifs with h1 h2 h3 h4 <;> simp <;> omega

theorem cmp_ne_lt_bid {x y : OrderIndex} (h : x.order_side = OrderSide.Bid) :
    OrderIndex.cmp x y ≠ Ordering.lt ↔
      (y.price < x.price ∨ (x.price = y.price ∧ x.timestamp ≤ y.timestamp)) := by
  unfold OrderIndex.cmp
  rw [h]
  split_ifs with h1 h2 h3 h4 <;> simp <;> omega

theorem cmp_eq_lt_bid {x y : OrderIndex} (h : x.order_side = OrderSide.Bid) :
    OrderIndex.cmp x y = Ordering.lt ↔
      (x.price < y.price ∨ (x.price = y.price ∧ y.timestamp < x.timestamp)) := by
  unfold OrderIndex.cmp
  rw [h]
  split_ifs with h1 h2 h3 h4 <;> simp <;> omega

/-- On an all-ask queue, the popped entry has the lowest price (earliest
timestamp among equal prices). -/
theorem popMax_best_ask :
    ∀ {l : List OrderIndex} {p : OrderIndex} {rest : List OrderIndex},
      (∀ x ∈ l, x.order_side = OrderSide.Ask) →
      popMax l = some (p, rest) →
      ∀ y ∈ rest, p.price < y.price ∨ (p.price = y.price ∧ p.timestamp ≤ y.timestamp) := by
  intro l
  induction l with
  | nil => intro p rest _ h; simp [popMax] at h
  | cons x xs ih =>
    intro p rest hside h
    have hxside : x.order_side = OrderSide.Ask := hside x (List.mem_cons_self x xs)
    have hxsside : ∀ z ∈ xs, z.order_side = OrderSide.Ask :=
      fun z hz => hside z (List.mem_cons_of_mem x hz)
    simp only [popMax] at h
    split at h
    · simp only [Option.some.injEq, Prod.mk.injEq] at h
      obtain ⟨rfl, rfl⟩ := h
      intro y hy
      simp at hy
    · rename_i m r hm
      have hbest := ih hxsside hm
      split at h
      · rename_i hc
        simp only [Option.some.injEq, Prod.mk.injEq] at h
        obtain ⟨rfl, rfl⟩ := h
        intro y hy
        rcases List.mem_cons.mp hy with rfl | hy'
        · have hylt := (cmp_eq_lt_ask hxside).mp hc
          omega
        · exact hbest y hy'
      · rename_i hc
        simp only [Option.some.injEq, Prod.mk.injEq] at h
        obtain ⟨rfl, rfl⟩ := h
        intro y hy
        have hxm' := (cmp_ne_lt_ask hxside).mp hc
        rcases popMax_mem hm hy with rfl | hy'
        · omega
        · have := hbest y hy'
          omega

/-- On an all-bid queue, the popped entry has the highest price (earliest
timestamp among equal prices). -/
theorem popMax_best_bid :
    ∀ {l : List OrderIndex} {p : OrderIndex} {rest : List OrderIndex},
      (∀ x ∈ l, x.order_side = OrderSide.Bid) →
      popMax l = some (p, rest) →
      ∀ y ∈ rest, y.price < p.price ∨ (p.price = y.price ∧ p.timestamp ≤ y.timestamp) := by
  intro l
  induction l with
  | nil => intro p rest _ h; simp [popMax] at h
  | cons x xs ih =>
    intro p rest hside h
    have hxside : x.order_side = OrderSide.Bid := hside x (List.mem_cons_self x xs)
    have hxsside : ∀ z ∈ xs, z.order_side = OrderSide.Bid :=
      fun z hz => hside z (List.mem_cons_of_mem x hz)
    simp only [popMax] at h
    split at h
    · simp only [Option.some.injEq, Prod.mk.injEq] at h
      obtain ⟨rfl, rfl⟩ := h
      intro y hy
      simp at hy
    · rename_i m r hm
      have hbest := ih hxsside hm
      split at h
      · rename_i hc
        simp only [Option.some.injEq, Prod.mk.injEq] at h
        obtain ⟨rfl, rfl⟩ := h
        intro y hy
        rcases List.mem_cons.mp hy with rfl | hy'
        · have hylt := (cmp_eq_lt_bid hxside).mp hc
          omega
        · exact hbest y hy'
      · rename_i hc
        simp only [Option.some.injEq, Prod.mk.injEq] at h
        obtain ⟨rfl, rfl⟩ := h
        intro y hy
        have hxm' := (cmp_ne_lt_bid hxside).mp hc
        rcases popMax_mem hm hy with rfl | hy'
        · omega
        · have := hbest y hy'
          omega

/-! ### Successive pops -/

theorem popSeqAux_perm :
    ∀ (n : Nat) (l : List OrderIndex), l.length ≤ n → (popSeqAux n l).Perm l := by
  intro n
  induction n with
  | zero =>
    intro l hl
    have : l = [] := List.length_eq_zero.mp (Nat.le_zero.mp hl)
    subst this
    simp [popSeqAux]
  | succ n ih =>
    intro l hl
    simp only [popSeqAux]
    cases hp : popMax l with
    | none =>
      have : l = [] := popMax_eq_none.mp hp
      subst this
      simp
    | some pr =>
      obtain ⟨p, rest⟩ := pr
      have hlen : rest.length ≤ n := by
        have := popMax_length hp
        omega
      exact (((ih rest hlen).cons p).trans (popMax_perm hp).symm)

theorem popSeqAux_mem {n : Nat} {l : List OrderIndex} (hl : l.length ≤ n)
    {y : OrderIndex} (hy : y ∈ popSeqAux n l) : y ∈ l :=
  (popSeqAux_perm n l hl).mem_iff.mp hy

/-- On an all-ask queue with pairwise distinct prices, successive pops come
out in strictly increasing price order. -/
theorem popSeqAux_chain_ask :
    ∀ (n : Nat) (l : List OrderIndex), l.length ≤ n →
      (∀ x ∈ l, x.order_side = OrderSide.Ask) →
      (l.map OrderIndex.price).Nodup →
      List.Chain' (fun a c => a < c) ((popSeqAux n l).map OrderIndex.price) := by
  intro n
  induction n with
  | zero => intro l _ _ _; simp [popSeqAux]
  | succ n ih =>
    intro l hl hside hnd
    simp only [popSeqAux]
    cases hp : popMax l with
    | none => simp
    | some pr =>
      obtain ⟨p, rest⟩ := pr
      have hlen : rest.length ≤ n := by
        have := popMax_length hp
        omega
      have hsideR : ∀ x ∈ rest, x.order_side = OrderSide.Ask :=
        fun x hx => hside x (popMax_rest_subset hp hx)
      have hpricesPerm : (l.map OrderIndex.price).Perm
          (p.price :: rest.map OrderIndex.price) := by
        have := (popMax_perm hp).map OrderIndex.price
        simpa using this
      have hndc : (p.price :: rest.map OrderIndex.price).Nodup := hpricesPerm.nodup hnd
      have hpnot : p.price ∉ rest.map OrderIndex.price := (List.nodup_cons.mp hndc).1
      have hndR : (rest.map OrderIndex.price).Nodup := (List.nodup_cons.mp hndc).2
      have hlt : ∀ y ∈ popSeqAux n rest, p.price < y.price := by
        intro y hy
        have hyR : y ∈ rest := popSeqAux_mem hlen hy
        rcases popMax_best_ask hside hp y hyR with h | h
        · exact h
        · exact absurd (List.mem_map.mpr ⟨y, hyR, h.1.symm⟩) hpnot
      simp only [List.map_cons]
      apply List.chain'_cons'.mpr
      constructor
      · intro q hq
        have hq' := List.mem_of_mem_head? hq
        rcases List.mem_map.mp hq' with ⟨y, hy, rfl⟩
        exact hlt y hy
      · exact ih rest hlen hsideR hndR

/-- On an all-bid queue with pairwise distinct prices, successive pops come
out in strictly decreasing price order. -/
theorem popSeqAux_chain_bid :
    ∀ (n : Nat) (l : List OrderIndex), l.length ≤ n →
      (∀ x ∈ l, x.order_side = OrderSide.Bid) →
      (l.map OrderIndex.price).Nodup →
      List.Chain' (fun a c => c < a) ((popSeqAux n l).map OrderIndex.price) := by
  intro n
  induction n with
  | zero => intro l _ _ _; simp [popSeqAux]
  | succ n ih =>
    intro l hl hside hnd
    simp only [popSeqAux]
    cases hp : popMax l with
    | none => simp
    | some pr =>
      obtain ⟨p, rest⟩ := pr
      have hlen : rest.length ≤ n := by
        have := popMax_length hp
        omega
      have hsideR : ∀ x ∈ rest, x.order_side = OrderSide.Bid :=
        fun x hx => hside x (popMax_rest_subset hp hx)
      have hpricesPerm : (l.map OrderIndex.price).Perm
          (p.price :: rest.map OrderIndex.price) := by
        have := (popMax_perm hp).map OrderIndex.price
        simpa using this
      have hndc : (p.price :: rest.map OrderIndex.price).Nodup := hpricesPerm.nodup hnd
      have hpnot : p.price ∉ rest.map OrderIndex.price := (List.nodup_cons.mp hndc).1
      have hndR : (rest.map OrderIndex.price).Nodup := (List.nodup_cons.mp hndc).2
      have hlt : ∀ y ∈ popSeqAux n rest, y.price < p.price := by
        intro y hy
        have hyR : y ∈ rest := popSeqAux_mem hlen hy
        rcases popMax_best_bid hside hp y hyR with h | h
        · exact h
        · exact absurd (List.mem_map.mpr ⟨y, hyR, h.1.symm⟩) hpnot
      simp only [List.map_cons]
      apply List.chain'_cons'.mpr
      constructor
      · intro q hq
        have hq' := List.mem_of_mem_head? hq
        rcases List.mem_map.mp hq' with ⟨y, hy, rfl⟩
        exact hlt y hy
      · exact ih rest hlen hsideR hndR

/-! ### Pop of a two-element queue -/

theorem popMax_pair_of_ne_lt {x y : OrderIndex} (h : OrderIndex.cmp x y ≠ Ordering.lt) :
    popMax [x, y] = some (x, [y]) := by
  simp [popMax, h]

theorem popMax_pair_of_lt {x y : OrderIndex} (h : OrderIndex.cmp x y = Ordering.lt) :
    popMax [x, y] = some (y, [x]) := by
  simp [popMax, h]

theorem popSeq_pair_of_ne_lt {x y : OrderIndex} (h : OrderIndex.cmp x y ≠ Ordering.lt) :
    popSeq [x, y] = [x, y] := by
  simp [popSeq, popSeqAux, popMax, h]

theorem popSeq_pair_of_lt {x y : OrderIndex} (h : OrderIndex.cmp x y = Ordering.lt) :
    popSeq [x, y] = [y, x] := by
  simp [popSeq, popSeqAux, popMax, h]

/-- C2: For every book containing only ask orders with pairwise distinct
prices, successive pops of the ask side return orders in strictly increasing
price order; mirror for the bid side: for bid orders with pairwise distinct
prices, successive pops of the bid side return orders in strictly decreasing
price order. -/
theorem c2_price_ordering (b : StickerOrderBook)
    (hAside : ∀ i ∈ b.order_queue_ask, i.order_side = OrderSide.Ask)
    (hAnd : (b.order_queue_ask.map OrderIndex.price).Nodup)
    (hBside : ∀ i ∈ b.order_queue_bid, i.order_side = OrderSide.Bid)
    (hBnd : (b.order_queue_bid.map OrderIndex.price).Nodup) :
    List.Chain' (fun a c => a < c) ((drainAsk b).map OrderIndex.price) ∧
    List.Chain' (fun a c => c < a) ((drainBid b).map OrderIndex.price) :=
  ⟨popSeqAux_chain_ask _ _ le_rfl hAside hAnd,
   popSeqAux_chain_bid _ _ le_rfl hBside hBnd⟩

theorem c2_price_ordering_witness :
    List.Chain' (fun a c => a < c) ((drainAsk bC2).map OrderIndex.price) ∧
    List.Chain' (fun a c => c < a) ((drainBid bC2).map OrderIndex.price) :=
  c2_price_ordering bC2 (by decide) (by decide) (by decide) (by decide)

/-- C3: For every pair of same-side orders with equal price and distinct
created_at timestamps, pops of that side return the order with the earlier
created_at first, whichever of the two queue arrangements the pair is in and
on both the bid and the ask side. -/
theorem c3_time_tiebreak (x y : OrderIndex)
    (hside : x.order_side = y.order_side)
    (hprice : x.price = y.price)
    (htime : x.timestamp < y.timestamp)
    (b : StickerOrderBook) :
    ((b.order_queue_ask = [x, y] ∨ b.order_queue_ask = [y, x]) → drainAsk b = [x, y]) ∧
    ((b.order_queue_bid = [x, y] ∨ b.order_queue_bid = [y, x]) → drainBid b = [x, y]) := by
  have hxy : OrderIndex.cmp x y ≠ Ordering.lt := by
    unfold OrderIndex.cmp
    split_ifs with a1 a2 a3 a4 <;> first | omega | decide
  have hyx : OrderIndex.cmp y x = Ordering.lt := by
    unfold OrderIndex.cmp
    split_ifs with a1 a2 a3 a4 <;> first | omega | decide
  constructor
  · intro hq
    rcases hq with hq | hq <;> rw [drainAsk, hq]
    · exact popSeq_pair_of_ne_lt hxy
    · exact popSeq_pair_of_lt hyx
  · intro hq
    rcases hq with hq | hq <;> rw [drainBid, hq]
    · exact popSeq_pair_of_ne_lt hxy
    · exact popSeq_pair_of_lt hyx

theorem c3_time_tiebreak_witness :
    drainAsk bC3 = [iA1, iA2] ∧ drainBid bC3 = [iB1, iB2] :=
  ⟨(c3_time_tiebreak iA1 iA2 (by decide) (by decide) (by decide) bC3).1 (Or.inl rfl),
   (c3_time_tiebreak iB1 iB2 (by decide) (by decide) (by decide) bC3).2 (Or.inr rfl)⟩

/-! ### Map and queue helper lemmas -/

theorem mapContains_false_iff {m : List (Int × Order)} {k : Int} :
    mapContains m k = false ↔ ∀ p ∈ m, p.1 ≠ k := by
  simp [mapContains]

theorem mapRemove_eq_self {m : List (Int × Order)} {k : Int}
    (h : mapContains m k = false) : mapRemove m k = m := by
  have h' := mapContains_false_iff.mp h
  exact List.filter_eq_self.mpr fun p hp => by simpa using h' p hp

theorem queue_filter_eq_self {q : List OrderIndex} {k : Int}
    (h : ∀ x ∈ q, x.id ≠ k) : q.filter (fun i => i.id ≠ k) = q :=
  List.filter_eq_self.mpr fun x hx => by simpa using h x hx

theorem mapRemove_mapInsert {m : List (Int × Order)} {k : Int} {v : Order} :
    mapRemove (mapInsert m k v) k = mapRemove m k := by
  simp [mapRemove, mapInsert, List.filter_filter]

theorem mapLookup_mapInsert_self {m : List (Int × Order)} {k : Int} {v : Order} :
    mapLookup (mapInsert m k v) k = some v := by
  simp [mapLookup, mapInsert]

theorem mapContains_mapInsert {m : List (Int × Order)} {k j : Int} {v : Order} :
    mapContains (mapInsert m k v) j = true ↔ (j = k ∨ mapContains m j = true) := by
  by_cases hjk : j = k
  · subst hjk
    simp [mapInsert, mapContains]
  · simp only [mapInsert, mapContains, List.any_cons, List.any_eq_true, Bool.or_eq_true,
      decide_eq_true_eq, List.mem_filter]
    constructor
    · rintro (h | ⟨p, ⟨hp, _⟩, hpj⟩)
      · exact absurd h.symm hjk
      · exact Or.inr ⟨p, hp, by simpa using hpj⟩
    · rintro (h | ⟨p, hp, hpj⟩)
      · exact absurd h hjk
      · exact Or.inr ⟨p, ⟨hp, by simp; omega⟩, by simpa using hpj⟩


theorem add_order_eq_bid {b : StickerOrderBook} {o : Order}
    (h : o.order_side = OrderSide.Bid) :
    add_order b o =
      { b with
        order_queue_bid :=
          { id := o.id, price := o.price, timestamp := o.created_at,
            order_side := OrderSide.Bid } :: b.order_queue_bid,
        order_map := mapInsert b.order_map o.id o } := by
  obtain ⟨i1, s1, c1, f1, u1, p1, side1, t1⟩ := o
  have h' : side1 = OrderSide.Bid := h
  subst h'
  rfl

theorem add_order_eq_ask {b : StickerOrderBook} {o : Order}
    (h : o.order_side = OrderSide.Ask) :
    add_order b o =
      { b with
        order_queue_ask :=
          { id := o.id, price := o.price, timestamp := o.created_at,
            order_side := OrderSide.Ask } :: b.order_queue_ask,
        order_map := mapInsert b.order_map o.id o } := by
  obtain ⟨i1, s1, c1, f1, u1, p1, side1, t1⟩ := o
  have h' : side1 = OrderSide.Ask := h
  subst h'
  rfl

theorem popMax_id_not_in_rest {l : List OrderIndex} {p : OrderIndex} {rest : List OrderIndex}
    (h : popMax l = some (p, rest)) (hnd : (l.map OrderIndex.id).Nodup) :
    ∀ x ∈ rest, x.id ≠ p.id := by
  intro x hx heq
  have hperm : (l.map OrderIndex.id).Perm (p.id :: rest.map OrderIndex.id) := by
    simpa using (popMax_perm h).map OrderIndex.id
  have hnd' := hperm.nodup hnd
  exact (List.nodup_cons.mp hnd').1 (List.mem_map.mpr ⟨x, hx, heq⟩)

/-- C4 counterexample: the source's `add_order` performs no duplicate check.
Adding a second order with the already-present id 1 mutates the book (it does
not reject), the map entry for id 1 is overwritten with the new order, the
bid queue now holds two entries, and the spec-described `add_order` would
instead have rejected this call with `DuplicateOrderId`. -/
theorem c4_counterexample :
    add_order bDup oBid50dup ≠ bDup ∧
    mapLookup (add_order bDup oBid50dup).order_map 1 = some oBid50dup ∧
    (add_order bDup oBid50dup).order_queue_bid.length = 2 ∧
    add_order_spec bDup oBid50dup = Except.error OrderError.DuplicateOrderId := by
  refine ⟨by decide, by decide, by decide, rfl⟩

/-- C4 amended: calling `add_order` with an id already present in the map
does not fail (the source has no error channel and no duplicate check): it
replaces the map entry for that id (lookup now yields the new order), leaves
the key set of the map unchanged, and pushes one more index entry onto the
queues — so the book is mutated, not left as it was. -/
theorem c4_duplicate_add_overwrites (b : StickerOrderBook) (o : Order)
    (h : mapContains b.order_map o.id = true) :
    mapLookup (add_order b o).order_map o.id = some o ∧
    (∀ k, mapContains (add_order b o).order_map k = mapContains b.order_map k) ∧
    (add_order b o).order_queue_bid.length + (add_order b o).order_queue_ask.length =
      b.order_queue_bid.length + b.order_queue_ask.length + 1 := by
  have hmap : (add_order b o).order_map = mapInsert b.order_map o.id o := by
    cases ho : o.order_side
    · rw [add_order_eq_bid ho]
    · rw [add_order_eq_ask ho]
  refine ⟨by rw [hmap]; exact mapLookup_mapInsert_self, ?_, ?_⟩
  · intro k
    rw [hmap]
    apply Bool.coe_iff_coe.mp
    rw [mapContains_mapInsert]
    constructor
    · rintro (rfl | hk)
      · exact h
      · exact hk
    · exact Or.inr
  · cases ho : o.order_side
    · rw [add_order_eq_bid ho]; simp; omega
    · rw [add_order_eq_ask ho]; simp; omega

theorem c4_duplicate_add_overwrites_witness :
    mapLookup (add_order bDup oBid50dup).order_map oBid50dup.id = some oBid50dup ∧
    (∀ k, mapContains (add_order bDup oBid50dup).order_map k = mapContains bDup.order_map k) ∧
    (add_order bDup oBid50dup).order_queue_bid.length +
        (add_order bDup oBid50dup).order_queue_ask.length =
      bDup.order_queue_bid.length + bDup.order_queue_ask.length + 1 :=
  c4_duplicate_add_overwrites bDup oBid50dup (by decide)

/-- C5 counterexample: cancelling id 5 on the empty book does not produce an
`OrderNotFound` error in the source — `remove_order` has no error channel at
all and completes as a silent no-op, returning the book unchanged, whereas
the spec-described `cancel_order` would reject with `OrderNotFound`. -/
theorem c5_counterexample :
    remove_order StickerOrderBook.new 5 = StickerOrderBook.new ∧
    cancel_order_spec StickerOrderBook.new 5 = Except.error OrderError.OrderNotFound := by
  exact ⟨by decide, rfl⟩

/-- C5 amended: for every book state and every id not present in the book,
`remove_order` on that id is a silent no-op: it signals nothing (the source
function has no error result) and returns the book unchanged; in particular
cancelling the same id a second time after a successful cancel is again a
no-op rather than an `OrderNotFound` error. -/
theorem c5_cancel_unknown_noop (b : StickerOrderBook) (i : Int)
    (h1 : mapContains b.order_map i = false)
    (h2 : ∀ x ∈ b.order_queue_bid, x.id ≠ i)
    (h3 : ∀ x ∈ b.order_queue_ask, x.id ≠ i) :
    remove_order b i = b ∧
    remove_order (remove_order b i) i = remove_order b i := by
  have hb : remove_order b i = b := by
    obtain ⟨m, qa, qb⟩ := b
    unfold remove_order
    simp only [StickerOrderBook.mk.injEq]
    exact ⟨mapRemove_eq_self h1, queue_filter_eq_self h3, queue_filter_eq_self h2⟩
  exact ⟨hb, by rw [hb, hb]⟩

theorem c5_cancel_unknown_noop_witness :
    remove_order bDup 99 = bDup ∧
    remove_order (remove_order bDup 99) 99 = remove_order bDup 99 :=
  c5_cancel_unknown_noop bDup 99 (by decide) (by decide) (by decide)

/-- C6 counterexample: popping the best bid from a book holding the single
bid order id 1 returns that order's index, yet id 1 is still a key of the
order map afterwards — `next_bid_order` only pops the queue and never
touches the map, contradicting the claim that the popped id is removed from
the map as well. -/
theorem c6_counterexample :
    (next_bid_order bDup).1 = some idxBid50 ∧
    mapContains ((next_bid_order bDup).2).order_map 1 = true := by
  exact ⟨by decide, by decide⟩

/-- C6 amended: if a pop of one side returns an order index, then exactly
that occurrence is removed from that side's queue (the old queue is a
permutation of the popped entry consed onto the new queue; when the queue's
ids are duplicate-free the popped id is gone from that queue), while the
order map and the other side's queue are left untouched. -/
theorem c6_pop_removes_queue_entry_only (b : StickerOrderBook) (p : OrderIndex)
    (b2 : StickerOrderBook) :
    (next_bid_order b = (some p, b2) →
      b2.order_map = b.order_map ∧
      b2.order_queue_ask = b.order_queue_ask ∧
      b.order_queue_bid.Perm (p :: b2.order_queue_bid) ∧
      ((b.order_queue_bid.map OrderIndex.id).Nodup →
        ∀ x ∈ b2.order_queue_bid, x.id ≠ p.id)) ∧
    (next_ask_order b = (some p, b2) →
      b2.order_map = b.order_map ∧
      b2.order_queue_bid = b.order_queue_bid ∧
      b.order_queue_ask.Perm (p :: b2.order_queue_ask) ∧
      ((b.order_queue_ask.map OrderIndex.id).Nodup →
        ∀ x ∈ b2.order_queue_ask, x.id ≠ p.id)) := by
  constructor
  · intro h
    unfold next_bid_order at h
    cases hp : popMax b.order_queue_bid with
    | none => rw [hp] at h; simp at h
    | some pr =>
      obtain ⟨q, rest⟩ := pr
      rw [hp] at h
      simp only [Prod.mk.injEq, Option.some.injEq] at h
      obtain ⟨rfl, rfl⟩ := h
      exact ⟨rfl, rfl, popMax_perm hp, fun hnd => popMax_id_not_in_rest hp hnd⟩
  · intro h
    unfold next_ask_order at h
    cases hp : popMax b.order_queue_ask with
    | none => rw [hp] at h; simp at h
    | some pr =>
      obtain ⟨q, rest⟩ := pr
      rw [hp] at h
      simp only [Prod.mk.injEq, Option.some.injEq] at h
      obtain ⟨rfl, rfl⟩ := h
      exact ⟨rfl, rfl, popMax_perm hp, fun hnd => popMax_id_not_in_rest hp hnd⟩

theorem c6_pop_removes_queue_entry_only_witness :
    (next_bid_order bDup).2.order_map = bDup.order_map ∧
    (next_bid_order bDup).2.order_queue_ask = bDup.order_queue_ask ∧
    bDup.order_queue_bid.Perm (idxBid50 :: (next_bid_order bDup).2.order_queue_bid) ∧
    ((bDup.order_queue_bid.map OrderIndex.id).Nodup →
      ∀ x ∈ (next_bid_order bDup).2.order_queue_bid, x.id ≠ idxBid50.id) :=
  (c6_pop_removes_queue_entry_only bDup idxBid50 (next_bid_order bDup).2).1 (by decide)

/-- C9: adding an order whose id appears nowhere in the book and then
cancelling that id restores the book exactly: the map and both queues are
identical to their state before the pair of calls. -/
theorem c9_add_cancel_round_trip (b : StickerOrderBook) (o : Order)
    (h1 : mapContains b.order_map o.id = false)
    (h2 : ∀ x ∈ b.order_queue_bid, x.id ≠ o.id)
    (h3 : ∀ x ∈ b.order_queue_ask, x.id ≠ o.id) :
    remove_order (add_order b o) o.id = b := by
  obtain ⟨m, qa, qb⟩ := b
  have hm : mapRemove (mapInsert m o.id o) o.id = m := by
    rw [mapRemove_mapInsert]
    exact mapRemove_eq_self h1
  cases ho : o.order_side with
  | Bid =>
    rw [add_order_eq_bid ho]
    unfold remove_order
    simp only [StickerOrderBook.mk.injEq]
    refine ⟨hm, queue_filter_eq_self h3, ?_⟩
    rw [List.filter_cons_of_neg (by simp)]
    exact queue_filter_eq_self h2
  | Ask =>
    rw [add_order_eq_ask ho]
    unfold remove_order
    simp only [StickerOrderBook.mk.injEq]
    refine ⟨hm, ?_, queue_filter_eq_self h2⟩
    rw [List.filter_cons_of_neg (by simp)]
    exact queue_filter_eq_self h3

theorem c9_add_cancel_round_trip_witness :
    remove_order (add_order bDup oAsk40) oAsk40.id = bDup :=
  c9_add_cancel_round_trip bDup oAsk40 (by decide) (by decide) (by decide)

/-! ### Presence and coverage lemmas for operation sequences -/

theorem mapContains_mapInsert_false {m : List (Int × Order)} {k j : Int} {v : Order}
    (h1 : j ≠ k) (h2 : mapContains m j = false) :
    mapContains (mapInsert m k v) j = false := by
  rcases Bool.eq_false_or_eq_true (mapContains (mapInsert m k v) j) with ht | ht
  · rcases mapContains_mapInsert.mp ht with rfl | hcontra
    · exact absurd rfl h1
    · rw [h2] at hcontra; cases hcontra
  · exact ht

theorem mapContains_mapRemove_false {m : List (Int × Order)} {j k : Int}
    (h : mapContains m k = false) : mapContains (mapRemove m j) k = false :=
  mapContains_false_iff.mpr fun p hp =>
    mapContains_false_iff.mp h p (List.mem_of_mem_filter hp)

theorem mapContains_mapRemove_self {m : List (Int × Order)} {k : Int} :
    mapContains (mapRemove m k) k = false :=
  mapContains_false_iff.mpr fun p hp => by
    have := (List.mem_filter.mp hp).2
    simpa using this

theorem mapContains_mapRemove_true {m : List (Int × Order)} {j k : Int}
    (h1 : k ≠ j) (h2 : mapContains m k = true) :
    mapContains (mapRemove m j) k = true := by
  simp only [mapContains, List.any_eq_true, decide_eq_true_eq] at h2 ⊢
  obtain ⟨p, hp, hpk⟩ := h2
  exact ⟨p, List.mem_filter.mpr ⟨hp, by simp; omega⟩, hpk⟩

/-- `queuesCovered` is preserved by every book operation. -/
theorem queuesCovered_applyOp {b : StickerOrderBook} (h : queuesCovered b) (op : BookOp) :
    queuesCovered (applyOp b op) := by
  obtain ⟨hbid, hask⟩ := h
  cases op with
  | add o =>
    cases ho : o.order_side with
    | Bid =>
      simp only [applyOp]
      rw [add_order_eq_bid ho]
      constructor
      · intro i hi
        rcases List.mem_cons.mp hi with rfl | hi'
        · exact mapContains_mapInsert.mpr (Or.inl rfl)
        · exact mapContains_mapInsert.mpr (Or.inr (hbid i hi'))
      · intro i hi
        exact mapContains_mapInsert.mpr (Or.inr (hask i hi))
    | Ask =>
      simp only [applyOp]
      rw [add_order_eq_ask ho]
      constructor
      · intro i hi
        exact mapContains_mapInsert.mpr (Or.inr (hbid i hi))
      · intro i hi
        rcases List.mem_cons.mp hi with rfl | hi'
        · exact mapContains_mapInsert.mpr (Or.inl rfl)
        · exact mapContains_mapInsert.mpr (Or.inr (hask i hi'))
  | cancel j =>
    simp only [applyOp, remove_order]
    constructor
    · intro i hi
      have hmem := List.mem_of_mem_filter hi
      have hne : i.id ≠ j := by
        have := (List.mem_filter.mp hi).2
        simpa using this
      exact mapContains_mapRemove_true hne (hbid i hmem)
    · intro i hi
      have hmem := List.mem_of_mem_filter hi
      have hne : i.id ≠ j := by
        have := (List.mem_filter.mp hi).2
        simpa using this
      exact mapContains_mapRemove_true hne (hask i hmem)
  | popBid =>
    simp only [applyOp, next_bid_order]
    cases hp : popMax b.order_queue_bid with
    | none => exact ⟨hbid, hask⟩
    | some pr =>
      obtain ⟨q, rest⟩ := pr
      exact ⟨fun i hi => hbid i (popMax_rest_subset hp hi), hask⟩
  | popAsk =>
    simp only [applyOp, next_ask_order]
    cases hp : popMax b.order_queue_ask with
    | none => exact ⟨hbid, hask⟩
    | some pr =>
      obtain ⟨q, rest⟩ := pr
      exact ⟨hbid, fun i hi => hask i (popMax_rest_subset hp hi)⟩

/-- C10: in every book state reachable from a fresh `StickerOrderBook` by
any sequence of `add_order`, `remove_order`, `next_bid_order`, and
`next_ask_order` calls, every `OrderIndex` entry in either side queue has an
id that is a key of the book's order map — no dangling queue entry is ever
created. -/
theorem c10_no_dangling_queue_entries (ops : List BookOp) :
    queuesCovered (applyOps StickerOrderBook.new ops) := by
  have hstep : ∀ (l : List BookOp) (b : StickerOrderBook),
      queuesCovered b → queuesCovered (applyOps b l) := by
    intro l
    induction l with
    | nil => intro b h; exact h
    | cons op rest ih =>
      intro b h
      exact ih (applyOp b op) (queuesCovered_applyOp h op)
  refine hstep ops StickerOrderBook.new ⟨?_, ?_⟩ <;> intro i hi <;>
    simp [StickerOrderBook.new] at hi

/-- `idFree` is preserved by every operation that does not re-add the id. -/
theorem idFree_applyOp {b : StickerOrderBook} {i : Int} (h : idFree b i) {op : BookOp}
    (hop : ∀ o : Order, op = BookOp.add o → o.id ≠ i) : idFree (applyOp b op) i := by
  obtain ⟨hmap, hbid, hask⟩ := h
  cases op with
  | add o =>
    have hoid : o.id ≠ i := hop o rfl
    cases ho : o.order_side with
    | Bid =>
      simp only [applyOp]
      rw [add_order_eq_bid ho]
      refine ⟨mapContains_mapInsert_false (by omega) hmap, ?_, hask⟩
      intro x hx
      rcases List.mem_cons.mp hx with rfl | hx'
      · exact hoid
      · exact hbid x hx'
    | Ask =>
      simp only [applyOp]
      rw [add_order_eq_ask ho]
      refine ⟨mapContains_mapInsert_false (by omega) hmap, hbid, ?_⟩
      intro x hx
      rcases List.mem_cons.mp hx with rfl | hx'
      · exact hoid
      · exact hask x hx'
  | cancel j =>
    simp only [applyOp, remove_order]
    exact ⟨mapContains_mapRemove_false hmap,
      fun x hx => hbid x (List.mem_of_mem_filter hx),
      fun x hx => hask x (List.mem_of_mem_filter hx)⟩
  | popBid =>
    simp only [applyOp, next_bid_order]
    cases hp : popMax b.order_queue_bid with
    | none => exact ⟨hmap, hbid, hask⟩
    | some pr =>
      obtain ⟨q, rest⟩ := pr
      exact ⟨hmap, fun x hx => hbid x (popMax_rest_subset hp hx), hask⟩
  | popAsk =>
    simp only [applyOp, next_ask_order]
    cases hp : popMax b.order_queue_ask with
    | none => exact ⟨hmap, hbid, hask⟩
    | some pr =>
      obtain ⟨q, rest⟩ := pr
      exact ⟨hmap, hbid, fun x hx => hask x (popMax_rest_subset hp hx)⟩

/-- C8: after `remove_order b i` for an id present in the book, the id is
purged from the map and both queues, it stays absent under any further
operation sequence that does not re-add it, and no pop of either side at
that point can return an index with id `i`. -/
theorem c8_cancel_erases_presence (b : StickerOrderBook) (i : Int)
    (hpresent : mapContains b.order_map i = true)
    (ops : List BookOp)
    (hnoreadd : ∀ o : Order, BookOp.add o ∈ ops → o.id ≠ i) :
    idFree (applyOps (remove_order b i) ops) i ∧
    (∀ p b2, next_bid_order (applyOps (remove_order b i) ops) = (some p, b2) → p.id ≠ i) ∧
    (∀ p b2, next_ask_order (applyOps (remove_order b i) ops) = (some p, b2) → p.id ≠ i) := by
  have h0 : idFree (remove_order b i) i := by
    refine ⟨mapContains_mapRemove_self, ?_, ?_⟩ <;>
      intro x hx <;>
      · have := (List.mem_filter.mp hx).2
        simpa using this
  have hall : ∀ (l : List BookOp) (b0 : StickerOrderBook), idFree b0 i →
      (∀ o : Order, BookOp.add o ∈ l → o.id ≠ i) → idFree (applyOps b0 l) i := by
    intro l
    induction l with
    | nil => intro b0 h _; exact h
    | cons op rest ih =>
      intro b0 h hno
      refine ih (applyOp b0 op) (idFree_applyOp h ?_) ?_
      · intro o hopeq
        exact hno o (hopeq ▸ List.mem_cons_self op rest)
      · intro o ho
        exact hno o (List.mem_cons_of_mem op ho)
  have hfree := hall ops (remove_order b i) h0 hnoreadd
  refine ⟨hfree, ?_, ?_⟩
  · intro p b2 hpop
    unfold next_bid_order at hpop
    cases hp : popMax (applyOps (remove_order b i) ops).order_queue_bid with
    | none => rw [hp] at hpop; simp at hpop
    | some pr =>
      obtain ⟨q, rest⟩ := pr
      rw [hp] at hpop
      simp only [Prod.mk.injEq, Option.some.injEq] at hpop
      obtain ⟨rfl, rfl⟩ := hpop
      exact hfree.2.1 q (popMax_self_mem hp)
  · intro p b2 hpop
    unfold next_ask_order at hpop
    cases hp : popMax (applyOps (remove_order b i) ops).order_queue_ask with
    | none => rw [hp] at hpop; simp at hpop
    | some pr =>
      obtain ⟨q, rest⟩ := pr
      rw [hp] at hpop
      simp only [Prod.mk.injEq, Option.some.injEq] at hpop
      obtain ⟨rfl, rfl⟩ := hpop
      exact hfree.2.2 q (popMax_self_mem hp)

theorem c8_cancel_erases_presence_witness :
    idFree (applyOps (remove_order bDup 1) [BookOp.popBid, BookOp.popAsk]) 1 ∧
    (∀ p b2, next_bid_order (applyOps (remove_order bDup 1) [BookOp.popBid, BookOp.popAsk]) =
      (some p, b2) → p.id ≠ 1) ∧
    (∀ p b2, next_ask_order (applyOps (remove_order bDup 1) [BookOp.popBid, BookOp.popAsk]) =
      (some p, b2) → p.id ≠ 1) :=
  c8_cancel_erases_presence bDup 1 (by decide) [BookOp.popBid, BookOp.popAsk]
    (by intro o ho; simp at ho)

/-! ### The crossing loop leaves no residual cross -/

theorem matchAux_noCross (now : Nat) :
    ∀ (n : Nat) (b : StickerOrderBook),
      b.order_queue_bid.length + b.order_queue_ask.length ≤ n →
      noCross (matchAux now n b).1 := by
  intro n
  induction n with
  | zero =>
    intro b hlen
    have hbid : b.order_queue_bid = [] := List.length_eq_zero.mp (by omega)
    intro x rx y ry hx hy
    simp only [matchAux] at hx
    rw [hbid] at hx
    simp [popMax] at hx
  | succ n ih =>
    intro b hlen
    cases hpb : popMax b.order_queue_bid with
    | none =>
      have hres : matchAux now (n + 1) b = (b, [], []) := by
        simp only [matchAux, hpb]
      rw [hres]
      intro x rx y ry hx hy
      rw [hpb] at hx
      cases hx
    | some prb =>
      obtain ⟨pb, restB⟩ := prb
      cases hpa : popMax b.order_queue_ask with
      | none =>
        have hres : matchAux now (n + 1) b = (b, [], []) := by
          simp only [matchAux, hpb, hpa]
        rw [hres]
        intro x rx y ry hx hy
        rw [hpa] at hy
        cases hy
      | some pra =>
        obtain ⟨pa, restA⟩ := pra
        by_cases hcross : pb.price < pa.price
        · have hres : matchAux now (n + 1) b = (b, [], []) := by
            simp only [matchAux, hpb, hpa, if_pos hcross]
          rw [hres]
          intro x rx y ry hx hy
          rw [hpb] at hx
          rw [hpa] at hy
          simp only [Option.some.injEq, Prod.mk.injEq] at hx hy
          obtain ⟨rfl, rfl⟩ := hx
          obtain ⟨rfl, rfl⟩ := hy
          exact hcross
        · cases hlb : mapLookup b.order_map pb.id with
          | none =>
            have hres : matchAux now (n + 1) b =
                matchAux now n { b with order_queue_bid := restB } := by
              simp only [matchAux, hpb, hpa, if_neg hcross, hlb]
            rw [hres]
            apply ih
            have := popMax_length hpb
            simp only []
            omega
          | some bo =>
            cases hla : mapLookup b.order_map pa.id with
            | none =>
              have hres : matchAux now (n + 1) b =
                  matchAux now n { b with order_queue_ask := restA } := by
                simp only [matchAux, hpb, hpa, if_neg hcross, hlb, hla]
              rw [hres]
              apply ih
              have := popMax_length hpa
              simp only []
              omega
            | some ao =>
              have hres : (matchAux now (n + 1) b).1 =
                  (matchAux now n
                    { order_map := mapRemove (mapRemove b.order_map pb.id) pa.id,
                      order_queue_bid := restB,
                      order_queue_ask := restA }).1 := by
                simp only [matchAux, hpb, hpa, if_neg hcross, hlb, hla]
              rw [hres]
              apply ih
              have hlb' := popMax_length hpb
              have hla' := popMax_length hpa
              simp only []
              omega

/-- C7: For every book state, after the (spec-modelled) `match()` returns
there is no residual cross: it is not the case that both sides are non-empty
with best bid price greater than or equal to best ask price. -/
theorem c7_no_residual_cross (now : Nat) (b : StickerOrderBook) :
    noCross (match_order_spec now b).1 :=
  matchAux_noCross now _ b le_rfl

theorem c7_no_residual_cross_witness :
    OrderIndex.price { id := 3, price := 30, timestamp := 3, order_side := OrderSide.Bid } <
      OrderIndex.price { id := 2, price := 40, timestamp := 2, order_side := OrderSide.Ask } :=
  c7_no_residual_cross 0 bNoCross
    { id := 3, price := 30, timestamp := 3, order_side := OrderSide.Bid } []
    { id := 2, price := 40, timestamp := 2, order_side := OrderSide.Ask } []
    (by decide) (by decide)

/-- C1: submitting to an empty book a bid order at price 50 and then an ask
order at price 40, with the (spec-modelled) matching invoked, produces
exactly one trade, removes both orders from the book's map and queues, and
returns both orders marked filled with each filler set to the counterparty's
creator id. -/
theorem c1_match_correctness (now : Nat) (o1 o2 : Order)
    (h1 : o1.order_side = OrderSide.Bid) (h2 : o2.order_side = OrderSide.Ask)
    (hp1 : o1.price = 50) (hp2 : o2.price = 40) (hid : o1.id ≠ o2.id) :
    (match_order_spec now (add_order (add_order StickerOrderBook.new o1) o2)).1 =
      StickerOrderBook.new ∧
    (match_order_spec now (add_order (add_order StickerOrderBook.new o1) o2)).2.1.length = 1 ∧
    (match_order_spec now (add_order (add_order StickerOrderBook.new o1) o2)).2.2 =
      [{ o1 with is_fulfilled := true, fulfiller_user_id := some o2.creator_user_id },
       { o2 with is_fulfilled := true, fulfiller_user_id := some o1.creator_user_id }] := by
  rw [add_order_eq_ask h2, add_order_eq_bid h1]
  simp only [StickerOrderBook.new]
  have hM : mapInsert (mapInsert [] o1.id o1) o2.id o2 = [(o2.id, o2), (o1.id, o1)] := by
    simp [mapInsert, hid]
  have hL1 : mapLookup [(o2.id, o2), (o1.id, o1)] o1.id = some o1 := by
    simp [mapLookup, List.find?, Ne.symm hid]
  have hL2 : mapLookup [(o2.id, o2), (o1.id, o1)] o2.id = some o2 := by
    simp [mapLookup, List.find?]
  have hR : mapRemove (mapRemove [(o2.id, o2), (o1.id, o1)] o1.id) o2.id = [] := by
    simp [mapRemove, List.filter, hid, Ne.symm hid]
  simp only [match_order_spec, List.length_cons, List.length_nil, hM]
  simp only [matchAux, popMax, hp1, hp2]
  norm_num
  simp only [hL1, hL2, hR, matchAux, popMax]
  simp [hp1, hp2]

theorem c1_match_correctness_witness :
    (match_order_spec 7 (add_order (add_order StickerOrderBook.new oBid50) oAsk40)).1 =
      StickerOrderBook.new ∧
    (match_order_spec 7 (add_order (add_order StickerOrderBook.new oBid50) oAsk40)).2.1.length = 1 ∧
    (match_order_spec 7 (add_order (add_order StickerOrderBook.new oBid50) oAsk40)).2.2 =
      [{ oBid50 with is_fulfilled := true, fulfiller_user_id := some oAsk40.creator_user_id },
       { oAsk40 with is_fulfilled := true, fulfiller_user_id := some oBid50.creator_user_id }] :=
  c1_match_correctness 7 oBid50 oAsk40 (by decide) (by decide) (by decide) (by decide) (by decide)
